import Mathlib

/-!
Shallow embedding of the multi-source image acquisition pipeline of
naustra/bac-a-sable-vilma, together with theorems settling the
specification claims about it.

The embedded code comes from:
* src/telecharger_images_unified.py      (adapters, merge, sniffing, ranker, batch runner)
* src/telecharger_images_multi_sources.py (line-identical copies of the same functions)
* src/telecharger_images.py               (download_image and _is_child_friendly_image)
* src/scorer_images_clip.py               (CLIPImageScorer.score_image)

Python exceptions are embedded as `Except Unit` inputs: every point where the
Python code can raise (network call, PIL decode, file access) becomes an
explicit `Except` value supplied by the environment, and the embedded
functions are total on those inputs, mirroring the try/except structure of
the source.  Machine floats appearing in comparisons are modelled with `ℚ`
(the compared quantities are ratios of machine integers), and the CLIP
scores with `ℝ`.
-/

namespace Vilma

/-- Occurrence of a character list as a contiguous infix; mirrors the Python
substring test `needle in haystack` used by the source for source-name and
keyword matching. -/
def listContains (needle : List Char) : List Char → Bool
  | [] => needle.isPrefixOf []
  | c :: rest => needle.isPrefixOf (c :: rest) || listContains needle rest

/-- Python `needle in haystack` on strings. -/
def strContains (haystack needle : String) : Bool :=
  listContains needle.toList haystack.toList

/-- Model of `os.path.basename`: the characters after the last slash. -/
def basename (p : String) : String :=
  String.mk ((p.toList.reverse.takeWhile (fun c => c ≠ '/')).reverse)

/-- The filesystem and image decoder as the heuristic ranker sees them:
`decode p` is `PIL.Image.open(p).size` (`none` when `Image.open` raises),
`byteSize p` is `os.path.getsize(p)` in bytes. -/
structure FileSys where
  decode : String → Option (Nat × Nat)
  byteSize : String → Nat

/-- Source-priority bonus of `select_best_image`
(src/telecharger_images_unified.py lines 308-317): substring match on the
basename, first match wins. -/
def sourceBonus (filename : String) : Int :=
  if strContains filename "unsplash" then 4
  else if strContains filename "pexels" then 3
  else if strContains filename "wikipedia" then 2
  else if strContains filename "wikimedia" then 1
  else 0

/-- Score body of `select_best_image`
(src/telecharger_images_unified.py lines 294-322): resolution bonus tests
the width only, the aspect bonus compares `min/max` against 0.8 and 0.6,
and the size bonus compares `bytes / (1024*1024)` against 5. -/
def heuristic_score (w h : Nat) (name : String) (bytes : Nat) : Int :=
  (if 800 ≤ w then 2 else 0) +
  (if (4 : ℚ)/5 < (min w h : ℚ) / (max w h : ℚ) then 3
   else if (3 : ℚ)/5 < (min w h : ℚ) / (max w h : ℚ) then 1 else 0) +
  sourceBonus name +
  (if (bytes : ℚ) / (1024 * 1024) < 5 then 1 else 0)

/-- Per-path body of the `for image_path in image_list` loop of
`select_best_image`: `none` when the iteration raises (`Image.open` fails,
or `min/max` divides by zero on a 0x0 image) and is skipped by the
`except Exception: continue`. -/
def score_image (fs : FileSys) (p : String) : Option Int :=
  match fs.decode p with
  | none => none
  | some (w, h) =>
    if max w h = 0 then none
    else some (heuristic_score w h (basename p) (fs.byteSize p))

/-- The accumulator loop of `select_best_image`: `best` and `best_score`
start as `None` and `-1`, and are replaced only on a strictly greater
score. -/
def selectLoop (fs : FileSys) : List String → Option String → Int → Option String
  | [], best, _ => best
  | p :: rest, best, bestScore =>
    match score_image fs p with
    | none => selectLoop fs rest best bestScore
    | some s =>
      if bestScore < s then selectLoop fs rest (some p) s
      else selectLoop fs rest best bestScore

/-- `select_best_image` (src/telecharger_images_unified.py lines 281-331). -/
def select_best_image (fs : FileSys) (l : List String) : Option String :=
  if l.isEmpty then none else selectLoop fs l none (-1)

/-- Modelled from the spec.md section 4.4 wording, for the refinement
comparison of claim C2 only: identical to `heuristic_score` except that the
resolution bonus tests `min(width, height) >= 800` as the spec states. -/
def heuristic_score_spec (w h : Nat) (name : String) (bytes : Nat) : Int :=
  (if 800 ≤ min w h then 2 else 0) +
  (if (4 : ℚ)/5 < (min w h : ℚ) / (max w h : ℚ) then 3
   else if (3 : ℚ)/5 < (min w h : ℚ) / (max w h : ℚ) then 1 else 0) +
  sourceBonus name +
  (if (bytes : ℚ) / (1024 * 1024) < 5 then 1 else 0)

/-- Spec-side counterpart of `score_image`, built on `heuristic_score_spec`. -/
def score_image_spec (fs : FileSys) (p : String) : Option Int :=
  match fs.decode p with
  | none => none
  | some (w, h) =>
    if max w h = 0 then none
    else some (heuristic_score_spec w h (basename p) (fs.byteSize p))

theorem sourceBonus_bounds (f : String) : 0 ≤ sourceBonus f ∧ sourceBonus f ≤ 4 := by
  unfold sourceBonus
  split_ifs <;> norm_num

theorem aspect_cond_iff (a m M : Nat) (hM : M ≠ 0) :
    ((a : ℚ)/5 < (m : ℚ) / (M : ℚ)) ↔ a * M < 5 * m := by
  have hM5 : (0 : ℚ) < (M : ℚ) := by exact_mod_cast Nat.pos_of_ne_zero hM
  rw [div_lt_div_iff₀ (by norm_num) hM5]
  constructor
  · intro hlt
    have : (a * M : ℚ) < (5 * m : ℚ) := by linarith
    exact_mod_cast this
  · intro hlt
    have : (a * M : ℚ) < (5 * m : ℚ) := by exact_mod_cast hlt
    push_cast at this
    linarith

theorem size_cond_iff (bytes : Nat) :
    ((bytes : ℚ) / (1024 * 1024) < 5) ↔ bytes < 5242880 := by
  rw [div_lt_iff₀ (by norm_num)]
  constructor
  · intro hlt
    have : (bytes : ℚ) < (5242880 : ℚ) := by norm_num at hlt ⊢; linarith
    exact_mod_cast this
  · intro hlt
    have : (bytes : ℚ) < (5242880 : ℚ) := by exact_mod_cast hlt
    norm_num
    linarith

theorem heuristic_score_eq (w h : Nat) (name : String) (bytes : Nat)
    (hm : max w h ≠ 0) :
    heuristic_score w h name bytes =
      (if 800 ≤ w then 2 else 0) +
      (if 4 * max w h < 5 * min w h then 3
       else if 3 * max w h < 5 * min w h then 1 else 0) +
      sourceBonus name +
      (if bytes < 5242880 then 1 else 0) := by
  unfold heuristic_score
  have h4 := aspect_cond_iff 4 (min w h) (max w h) hm
  have h3 := aspect_cond_iff 3 (min w h) (max w h) hm
  push_cast at h4 h3
  simp only [h4, h3, size_cond_iff]

theorem heuristic_score_spec_eq (w h : Nat) (name : String) (bytes : Nat)
    (hm : max w h ≠ 0) :
    heuristic_score_spec w h name bytes =
      (if 800 ≤ min w h then 2 else 0) +
      (if 4 * max w h < 5 * min w h then 3
       else if 3 * max w h < 5 * min w h then 1 else 0) +
      sourceBonus name +
      (if bytes < 5242880 then 1 else 0) := by
  unfold heuristic_score_spec
  have h4 := aspect_cond_iff 4 (min w h) (max w h) hm
  have h3 := aspect_cond_iff 3 (min w h) (max w h) hm
  push_cast at h4 h3
  simp only [h4, h3, size_cond_iff]

theorem heuristic_score_bounds (w h : Nat) (name : String) (bytes : Nat) :
    0 ≤ heuristic_score w h name bytes ∧ heuristic_score w h name bytes ≤ 10 := by
  have hb := sourceBonus_bounds name
  unfold heuristic_score
  split_ifs <;> omega

theorem score_image_nonneg (fs : FileSys) (p : String) (s : Int)
    (h : score_image fs p = some s) : 0 ≤ s := by
  unfold score_image at h
  cases hd : fs.decode p with
  | none => simp [hd] at h
  | some wh =>
    obtain ⟨w, h2⟩ := wh
    simp only [hd] at h
    by_cases hm : max w h2 = 0
    · simp [hm] at h
    · simp only [if_neg hm, Option.some.injEq] at h
      have hb := (heuristic_score_bounds w h2 (basename p) (fs.byteSize p)).1
      omega

theorem score_image_eq_some (fs : FileSys) (p : String) (w h : Nat)
    (hd : fs.decode p = some (w, h)) (hm : max w h ≠ 0) :
    score_image fs p = some (heuristic_score w h (basename p) (fs.byteSize p)) := by
  unfold score_image
  simp only [hd, if_neg hm]

theorem selectLoop_mem (fs : FileSys) :
    ∀ (l : List String) (best : Option String) (b : Int) (p : String),
      selectLoop fs l best b = some p → best = some p ∨ p ∈ l := by
  intro l
  induction l with
  | nil => intro best b p h; exact Or.inl h
  | cons q rest ih =>
    intro best b p h
    simp only [selectLoop] at h
    cases hs : score_image fs q with
    | none =>
      simp only [hs] at h
      rcases ih best b p h with h1 | h2
      · exact Or.inl h1
      · exact Or.inr (List.mem_cons_of_mem q h2)
    | some s =>
      simp only [hs] at h
      by_cases hb : b < s
      · rw [if_pos hb] at h
        rcases ih (some q) s p h with h1 | h2
        · refine Or.inr ?_
          have : q = p := by injection h1
          simp [this]
        · exact Or.inr (List.mem_cons_of_mem q h2)
      · rw [if_neg hb] at h
        rcases ih best b p h with h1 | h2
        · exact Or.inl h1
        · exact Or.inr (List.mem_cons_of_mem q h2)

theorem selectLoop_isSome (fs : FileSys) :
    ∀ (l : List String) (q : String) (b : Int),
      ∃ r, selectLoop fs l (some q) b = some r := by
  intro l
  induction l with
  | nil => intro q b; exact ⟨q, rfl⟩
  | cons x rest ih =>
    intro q b
    simp only [selectLoop]
    cases hs : score_image fs x with
    | none => simp only [hs]; exact ih q b
    | some s =>
      simp only [hs]
      by_cases hb : b < s
      · rw [if_pos hb]; exact ih x s
      · rw [if_neg hb]; exact ih q b

theorem selectLoop_skip_none (fs : FileSys) :
    ∀ (l : List String) (best : Option String) (b : Int),
      (∀ p ∈ l, score_image fs p = none) → selectLoop fs l best b = best := by
  intro l
  induction l with
  | nil => intro best b _; rfl
  | cons x rest ih =>
    intro best b hall
    have hx : score_image fs x = none := hall x (by simp)
    simp only [selectLoop, hx]
    exact ih best b (fun p hp => hall p (by simp [hp]))

theorem selectLoop_reaches_some (fs : FileSys) :
    ∀ (l : List String) (b : Int) (p : String) (s : Int),
      p ∈ l → score_image fs p = some s → b < s →
      ∃ r, selectLoop fs l none b = some r := by
  intro l
  induction l with
  | nil => intro b p s hp _ _; cases hp
  | cons x rest ih =>
    intro b p s hp hs hb
    simp only [selectLoop]
    cases hx : score_image fs x with
    | none =>
      simp only [hx]
      have hpr : p ∈ rest := by
        rcases List.mem_cons.mp hp with h1 | h2
        · exfalso; rw [h1, hx] at hs; cases hs
        · exact h2
      exact ih b p s hpr hs hb
    | some t =>
      simp only [hx]
      by_cases hbt : b < t
      · rw [if_pos hbt]
        exact selectLoop_isSome fs rest x t
      · rw [if_neg hbt]
        have hpr : p ∈ rest := by
          rcases List.mem_cons.mp hp with h1 | h2
          · exfalso
            rw [h1, hx] at hs
            have : t = s := by injection hs
            omega
          · exact h2
        exact ih b p s hpr hs hb

theorem selectLoop_hold (fs : FileSys) :
    ∀ (l : List String) (q : String) (b : Int),
      (∀ r ∈ l, ∀ t, score_image fs r = some t → t ≤ b) →
      selectLoop fs l (some q) b = some q := by
  intro l
  induction l with
  | nil => intro q b _; rfl
  | cons x rest ih =>
    intro q b hall
    simp only [selectLoop]
    cases hx : score_image fs x with
    | none => simp only [hx]; exact ih q b (fun r hr t ht => hall r (by simp [hr]) t ht)
    | some t =>
      simp only [hx]
      have hle : t ≤ b := hall x (by simp) t hx
      rw [if_neg (by omega)]
      exact ih q b (fun r hr u hu => hall r (by simp [hr]) u hu)

theorem selectLoop_skip_lt (fs : FileSys) (s : Int) :
    ∀ (l1 rest : List String) (best : Option String) (b : Int),
      b < s → (∀ q ∈ l1, ∀ t, score_image fs q = some t → t < s) →
      ∃ best2 b2, selectLoop fs (l1 ++ rest) best b = selectLoop fs rest best2 b2 ∧ b2 < s := by
  intro l1
  induction l1 with
  | nil => intro rest best b hb _; exact ⟨best, b, rfl, hb⟩
  | cons x l1 ih =>
    intro rest best b hb hall
    simp only [List.cons_append, selectLoop]
    cases hx : score_image fs x with
    | none => simp only [hx]; exact ih rest best b hb (fun q hq => hall q (by simp [hq]))
    | some t =>
      simp only [hx]
      have ht : t < s := hall x (by simp) t hx
      by_cases hbt : b < t
      · rw [if_pos hbt]
        exact ih rest (some x) t ht (fun q hq => hall q (by simp [hq]))
      · rw [if_neg hbt]
        exact ih rest best b hb (fun q hq => hall q (by simp [hq]))

/-- C5 (amended): among the scored candidates the selected winner is the
first one, in list (= discovery/submission) order, to attain the maximal
score: if every path before `p` scores strictly less than `p` and every path
after `p` scores at most `p`, then `select_best_image` returns `p`.  The
static source priority enters only through the score itself, never as a
separate tie-break, and the result depends only on the list of candidates
in discovery order. -/
theorem selection_first_maximal_C5 (fs : FileSys) (l1 l2 : List String) (p : String) (s : Int)
    (hs : score_image fs p = some s)
    (hbefore : ∀ q ∈ l1, ∀ t, score_image fs q = some t → t < s)
    (hafter : ∀ q ∈ l2, ∀ t, score_image fs q = some t → t ≤ s) :
    select_best_image fs (l1 ++ p :: l2) = some p := by
  have hs0 : 0 ≤ s := score_image_nonneg fs p s hs
  have hne : (l1 ++ p :: l2).isEmpty = false := by simp
  unfold select_best_image
  rw [hne]
  simp only [Bool.false_eq_true, if_false]
  obtain ⟨best2, b2, heq, hb2⟩ :=
    selectLoop_skip_lt fs s l1 (p :: l2) none (-1) (by omega) hbefore
  rw [heq]
  simp only [selectLoop, hs]
  rw [if_pos hb2]
  exact selectLoop_hold fs l2 p s hafter

def fsW5 : FileSys := ⟨fun _ => some (100, 100), fun _ => 1000⟩

/-- Witness for C5 (amended) at a singleton candidate list. -/
theorem selection_first_maximal_C5_witness :
    select_best_image fsW5 ([] ++ "w5.jpg" :: []) = some "w5.jpg" :=
  selection_first_maximal_C5 fsW5 [] [] "w5.jpg" 4
    (by
      rw [score_image_eq_some fsW5 "w5.jpg" 100 100 rfl (by decide)]
      have hb : fsW5.byteSize "w5.jpg" = 1000 := rfl
      rw [hb, heuristic_score_eq 100 100 (basename "w5.jpg") 1000 (by decide)]
      decide)
    (by intro q hq; cases hq)
    (by intro q hq; cases hq)

def pC5A : String := "photo_pexels_1.jpg"

def pC5B : String := "photo_unsplash_2.jpg"

def fsC5 : FileSys :=
  ⟨fun _ => some (800, 800), fun p => if p = pC5B then 6291456 else 1000⟩

/-- C5 counterexample: two candidates tie at the maximal score 9, the second
one comes from the higher-priority source (unsplash, bonus 4, versus pexels,
bonus 3), yet `select_best_image` keeps the first-listed candidate: the tie
is broken by list position alone, not by source priority first as the claim
states. -/
theorem tie_break_ignores_source_priority_C5 :
    score_image fsC5 pC5A = some 9 ∧ score_image fsC5 pC5B = some 9 ∧
    sourceBonus (basename pC5A) < sourceBonus (basename pC5B) ∧
    select_best_image fsC5 [pC5A, pC5B] = some pC5A := by
  have hA : score_image fsC5 pC5A = some 9 := by
    rw [score_image_eq_some fsC5 pC5A 800 800 rfl (by decide)]
    have hbs : fsC5.byteSize pC5A = 1000 := by decide
    rw [hbs, heuristic_score_eq 800 800 (basename pC5A) 1000 (by decide)]
    decide
  have hB : score_image fsC5 pC5B = some 9 := by
    rw [score_image_eq_some fsC5 pC5B 800 800 rfl (by decide)]
    have hbs : fsC5.byteSize pC5B = 6291456 := by decide
    rw [hbs, heuristic_score_eq 800 800 (basename pC5B) 6291456 (by decide)]
    decide
  refine ⟨hA, hB, by decide, ?_⟩
  simp only [select_best_image, List.isEmpty_cons, Bool.false_eq_true, if_false,
    selectLoop, hA, hB]
  norm_num

/-- C9: `select_best_image` never raises (it is a total function of the
candidate list and the filesystem), returns a member of the input list when
it returns a path, and returns `None` exactly when the list is empty or
every listed path fails to decode.  The hypothesis records that a decodable
raster image has a nonzero dimension (PIL cannot decode a 0x0 PNG/JPEG),
which rules out the division-by-zero iteration skip. -/
theorem select_best_image_total_C9 (fs : FileSys) (l : List String)
    (hdim : ∀ p ∈ l, ∀ w h, fs.decode p = some (w, h) → max w h ≠ 0) :
    (∀ p, select_best_image fs l = some p → p ∈ l) ∧
    (select_best_image fs l = none ↔ (l = [] ∨ ∀ p ∈ l, fs.decode p = none)) := by
  constructor
  · intro p hp
    unfold select_best_image at hp
    by_cases hl : l.isEmpty
    · rw [if_pos hl] at hp; cases hp
    · rw [if_neg hl] at hp
      rcases selectLoop_mem fs l none (-1) p hp with h1 | h2
      · cases h1
      · exact h2
  · constructor
    · intro hnone
      by_cases hl : l.isEmpty
      · exact Or.inl (List.isEmpty_iff.mp hl)
      · right
        intro p hp
        cases hd : fs.decode p with
        | none => rfl
        | some wh =>
          obtain ⟨w, h⟩ := wh
          exfalso
          have hm := hdim p hp w h hd
          have hscore := score_image_eq_some fs p w h hd hm
          have hpos := (heuristic_score_bounds w h (basename p) (fs.byteSize p)).1
          unfold select_best_image at hnone
          rw [if_neg hl] at hnone
          obtain ⟨r, hr⟩ := selectLoop_reaches_some fs l (-1) p _ hp hscore (by omega)
          rw [hnone] at hr
          cases hr
    · intro hcase
      rcases hcase with h1 | h2
      · rw [h1]; rfl
      · unfold select_best_image
        by_cases hl : l.isEmpty
        · rw [if_pos hl]
        · rw [if_neg hl]
          apply selectLoop_skip_none
          intro p hp
          unfold score_image
          simp only [h2 p hp]

def fsW9 : FileSys := ⟨fun p => if p = "w9.jpg" then some (400, 300) else none, fun _ => 1000⟩

/-- Witness for C9 at a concrete one-element list. -/
theorem select_best_image_total_C9_witness :
    (∀ p, select_best_image fsW9 ["w9.jpg"] = some p → p ∈ ["w9.jpg"]) ∧
    (select_best_image fsW9 ["w9.jpg"] = none ↔
      (["w9.jpg"] = [] ∨ ∀ p ∈ ["w9.jpg"], fsW9.decode p = none)) :=
  select_best_image_total_C9 fsW9 ["w9.jpg"]
    (by
      intro p hp w h hd
      simp only [List.mem_singleton] at hp
      subst hp
      have : fsW9.decode "w9.jpg" = some (400, 300) := by decide
      rw [this] at hd
      injection hd with h1
      injection h1 with hw hh
      subst hw
      subst hh
      decide)

/-- C10: whenever the heuristic ranker produces a score for a decodable
image, that score is an integer between 0 and 10 inclusive (at most
2 for resolution + 3 for aspect + 4 for source priority + 1 for file
size). -/
theorem heuristic_score_bounded_C10 (fs : FileSys) (p : String) (s : Int)
    (h : score_image fs p = some s) : 0 ≤ s ∧ s ≤ 10 := by
  unfold score_image at h
  cases hd : fs.decode p with
  | none => simp [hd] at h
  | some wh =>
    obtain ⟨w, h2⟩ := wh
    simp only [hd] at h
    by_cases hm : max w h2 = 0
    · simp [hm] at h
    · simp only [if_neg hm, Option.some.injEq] at h
      have hb := heuristic_score_bounds w h2 (basename p) (fs.byteSize p)
      omega

def fsW10 : FileSys := ⟨fun _ => some (900, 880), fun _ => 1000⟩

/-- Witness for C10: the concrete image scores 6, which lies in [0, 10]. -/
theorem heuristic_score_bounded_C10_witness : (0 : Int) ≤ 6 ∧ (6 : Int) ≤ 10 :=
  heuristic_score_bounded_C10 fsW10 "w10.jpg" 6
    (by
      rw [score_image_eq_some fsW10 "w10.jpg" 900 880 rfl (by decide)]
      have hb : fsW10.byteSize "w10.jpg" = 1000 := rfl
      rw [hb, heuristic_score_eq 900 880 (basename "w10.jpg") 1000 (by decide)]
      decide)

/-- C2 (amended): for every decodable image, the heuristic score is the sum
of: +2 when the WIDTH is at least 800 (the height is not consulted by the
resolution bonus), +3 when short/long side exceeds 0.8 and otherwise +1 when
it exceeds 0.6, the static per-source bonus matched on the basename
(unsplash 4, pexels 3, wikipedia 2, wikimedia 1), and +1 exactly when the
file is below the 5 MB soft ceiling. -/
theorem score_formula_C2 (fs : FileSys) (p : String) (w h : Nat)
    (hd : fs.decode p = some (w, h)) (hm : max w h ≠ 0) :
    score_image fs p = some (
      (if 800 ≤ w then 2 else 0) +
      (if 4 * max w h < 5 * min w h then 3
       else if 3 * max w h < 5 * min w h then 1 else 0) +
      sourceBonus (basename p) +
      (if fs.byteSize p < 5242880 then 1 else 0)) := by
  rw [score_image_eq_some fs p w h hd hm]
  rw [heuristic_score_eq w h (basename p) (fs.byteSize p) hm]

def fsW2 : FileSys := ⟨fun _ => some (900, 900), fun _ => 1000⟩

/-- Witness for C2 (amended) at a concrete wikipedia-named file: score 8. -/
theorem score_formula_C2_witness : score_image fsW2 "w2_wikipedia.jpg" = some 8 := by
  rw [score_formula_C2 fsW2 "w2_wikipedia.jpg" 900 900 rfl (by decide)]
  decide

def fsC2 : FileSys := ⟨fun _ => some (800, 100), fun _ => 1000⟩

/-- C2 counterexample: an 800x100 image receives the +2 resolution bonus
from the code (the code tests only `width >= 800`), scoring 3, while the
formula claimed by the spec (min(width, height) >= 800) would score it 1:
the claimed score formula disagrees with the program on this input. -/
theorem score_resolution_uses_width_only_C2 :
    score_image fsC2 "img.jpg" = some 3 ∧ score_image_spec fsC2 "img.jpg" = some 1 := by
  have hb : fsC2.byteSize "img.jpg" = 1000 := rfl
  constructor
  · rw [score_image_eq_some fsC2 "img.jpg" 800 100 rfl (by decide)]
    rw [hb, heuristic_score_eq 800 100 (basename "img.jpg") 1000 (by decide)]
    decide
  · have h1 : heuristic_score_spec 800 100 (basename "img.jpg") 1000 = 1 := by
      rw [heuristic_score_spec_eq 800 100 (basename "img.jpg") 1000 (by decide)]
      decide
    unfold score_image_spec
    simp only [show fsC2.decode "img.jpg" = some (800, 100) from rfl,
      if_neg (show ¬ max 800 100 = 0 by decide), hb, h1]

/-! ## Batch runner: `download_multiple_words_parallel`
(src/telecharger_images_unified.py lines 417-456; the copy in
src/telecharger_images_multi_sources.py lines 415-454 is identical). -/

/-- One input row of `words_data`: `(word_en, french_name, macedonian_name)`. -/
structure WordData where
  word : String
  french : String
  macedonian : String
deriving DecidableEq

/-- Python dict assignment `results[k] = v` on an association list. -/
def dinsert (m : List (String × String)) (k v : String) : List (String × String) :=
  if m.any (fun q => q.1 == k) then m.map (fun q => if q.1 == k then (k, v) else q)
  else m ++ [(k, v)]

/-- Body of the `for future in as_completed(futures)` loop: a raised
exception (`Except.error`) or a missing best image leaves `results`
untouched; only a truthy `best_image` inserts
`results[french_name] = basename(best_image)`. -/
def batch_step (outcome : WordData → Except Unit (List String × Option String))
    (results : List (String × String)) (entry : WordData) : List (String × String) :=
  match outcome entry with
  | .error _ => results
  | .ok (_, none) => results
  | .ok (_, some best) => dinsert results entry.french (basename best)

/-- `download_multiple_words_parallel`: folds the per-term outcomes into the
`results` dict.  `outcome` is the environment: what
`download_10_images_for_word` returns for each term (or `error` when
`future.result()` raises).  `as_completed` iterates in completion order;
the fold iterates in submission order, which reaches the same mapping since
each term inserts at most its own key. -/
def download_multiple_words_parallel
    (outcome : WordData → Except Unit (List String × Option String))
    (words_data : List WordData) : List (String × String) :=
  words_data.foldl (batch_step outcome) []

theorem dinsert_keys (m : List (String × String)) (k v key : String) :
    key ∈ (dinsert m k v).map Prod.fst ↔ (key = k ∨ key ∈ m.map Prod.fst) := by
  unfold dinsert
  by_cases hm : m.any (fun q => q.1 == k)
  · rw [if_pos hm]
    have hk : k ∈ m.map Prod.fst := by
      rcases List.any_eq_true.mp hm with ⟨q, hq, hqe⟩
      have : q.1 = k := by simpa using hqe
      exact this ▸ List.mem_map_of_mem Prod.fst hq
    have hmap : (m.map (fun q => if q.1 == k then (k, v) else q)).map Prod.fst
        = m.map Prod.fst := by
      rw [List.map_map]
      apply List.map_congr_left
      intro q _
      by_cases hq : q.1 = k
      · simp [hq]
      · simp [hq]
    rw [hmap]
    constructor
    · exact Or.inr
    · rintro (h1 | h2)
      · exact h1 ▸ hk
      · exact h2
  · rw [if_neg hm]
    simp [or_comm]

theorem batch_keys_aux (outcome : WordData → Except Unit (List String × Option String)) :
    ∀ (wd : List WordData) (acc : List (String × String)) (key : String),
      key ∈ (wd.foldl (batch_step outcome) acc).map Prod.fst ↔
        (key ∈ acc.map Prod.fst ∨
          ∃ e ∈ wd, e.french = key ∧ ∃ fls b, outcome e = .ok (fls, some b)) := by
  intro wd
  induction wd with
  | nil => intro acc key; simp
  | cons e wd ih =>
    intro acc key
    rw [List.foldl_cons, ih (batch_step outcome acc e) key]
    cases ho : outcome e with
    | error u =>
      have hstep : batch_step outcome acc e = acc := by
        unfold batch_step; rw [ho]
      rw [hstep]
      constructor
      · rintro (h1 | h2)
        · exact Or.inl h1
        · exact Or.inr (by rcases h2 with ⟨f, hf, hk, hb⟩; exact ⟨f, by simp [hf], hk, hb⟩)
      · rintro (h1 | ⟨f, hf, hk, fls, b, hb⟩)
        · exact Or.inl h1
        · rcases List.mem_cons.mp hf with he | hf2
          · exfalso; rw [he] at hb; rw [ho] at hb; cases hb
          · exact Or.inr ⟨f, hf2, hk, fls, b, hb⟩
    | ok res =>
      obtain ⟨fls0, ob⟩ := res
      cases ob with
      | none =>
        have hstep : batch_step outcome acc e = acc := by
          unfold batch_step; rw [ho]
        rw [hstep]
        constructor
        · rintro (h1 | h2)
          · exact Or.inl h1
          · exact Or.inr (by rcases h2 with ⟨f, hf, hk, hb⟩; exact ⟨f, by simp [hf], hk, hb⟩)
        · rintro (h1 | ⟨f, hf, hk, fls, b, hb⟩)
          · exact Or.inl h1
          · rcases List.mem_cons.mp hf with he | hf2
            · exfalso
              rw [he, ho] at hb
              injection hb with hpair
              injection hpair with h1 h2
              cases h2
            · exact Or.inr ⟨f, hf2, hk, fls, b, hb⟩
      | some best =>
        have hstep : batch_step outcome acc e = dinsert acc e.french (basename best) := by
          unfold batch_step; rw [ho]
        rw [hstep, dinsert_keys]
        constructor
        · rintro ((h1 | h1) | h2)
          · exact Or.inr ⟨e, by simp, h1.symm, fls0, best, ho⟩
          · exact Or.inl h1
          · exact Or.inr (by rcases h2 with ⟨f, hf, hk, hb⟩; exact ⟨f, by simp [hf], hk, hb⟩)
        · rintro (h1 | ⟨f, hf, hk, fls, b, hb⟩)
          · exact Or.inl (Or.inr h1)
          · rcases List.mem_cons.mp hf with he | hf2
            · exact Or.inl (Or.inl (by rw [← he]; exact hk.symm))
            · exact Or.inr ⟨f, hf2, hk, fls, b, hb⟩

/-- C1 (amended): the mapping returned by the batch runner has an entry for
a term's french name exactly when that term's pipeline returned a best
image; a term whose pipeline raised or produced no valid image is OMITTED
from the mapping, never recorded as an explicit empty result. -/
theorem batch_manifest_keys_C1
    (outcome : WordData → Except Unit (List String × Option String))
    (words_data : List WordData) (key : String) :
    key ∈ (download_multiple_words_parallel outcome words_data).map Prod.fst ↔
      ∃ e ∈ words_data, e.french = key ∧ ∃ fls b, outcome e = .ok (fls, some b) := by
  unfold download_multiple_words_parallel
  rw [batch_keys_aux outcome words_data [] key]
  simp

def wEclair : WordData := ⟨"eclair", "eclair_fr", "eklair_mk"⟩

/-- Outcome environment of spec Scenario B: the term produces no valid
candidate, `download_10_images_for_word` returns `([], None)`. -/
def outcomeEmptyTerm : WordData → Except Unit (List String × Option String) :=
  fun _ => .ok ([], none)

/-- C1 counterexample: a batch of one term whose pipeline finds no valid
image yields a returned mapping that is EMPTY — the term is absent, with no
explicit empty entry, contradicting the claim that every input term appears
in the manifest. -/
theorem batch_manifest_omits_empty_term_C1 :
    download_multiple_words_parallel outcomeEmptyTerm [wEclair] = [] ∧
    "eclair_fr" ∉ (download_multiple_words_parallel outcomeEmptyTerm [wEclair]).map Prod.fst := by
  constructor
  · rfl
  · decide

/-! ## Source adapters and the candidate merge
(src/telecharger_images_unified.py lines 31-242 and 348-390). -/

/-- The common candidate shape the adapters map provider responses into.
Wikimedia leaves width/height/url possibly absent (`info.get(...)`), hence
the `Option` fields. -/
structure Candidate where
  url : Option String
  width : Option Nat
  height : Option Nat
  source : String
  description : String
  author : String
deriving DecidableEq

/-- One entry of the parsed Unsplash `results` array, already holding the
fields the adapter reads; a response in which any of them is missing raises
`KeyError` inside the `try` and is modelled as `Except.error` at the
response level. -/
structure UnsplashPhoto where
  regular : String
  width : Nat
  height : Nat
  description : String
  userName : String
deriving DecidableEq

/-- `download_from_unsplash` (src/telecharger_images_unified.py lines
31-71): gated on source availability, empty-auth check, then the whole
network/parse phase under `try/except` returning `[]` on any error. -/
def download_from_unsplash (avail : List String) (auth : String)
    (resp : Except Unit (List UnsplashPhoto)) : List Candidate :=
  if "unsplash" ∈ avail then
    if auth = "" then []
    else
      match resp with
      | .error _ => []
      | .ok photos => photos.map (fun p =>
          { url := some p.regular, width := some p.width, height := some p.height,
            source := "unsplash", description := p.description, author := p.userName })
  else []

/-- One hit of the Wikimedia file search response. -/
structure WmSearchItem where
  title : String
deriving DecidableEq

/-- The `imageinfo[0]` record of one Wikimedia page. -/
structure WmInfo where
  url : Option String
  thumburl : Option String
  size : Nat
  width : Option Nat
  height : Option Nat
deriving DecidableEq

/-- One page of the second Wikimedia response; `info = none` models a page
without an `imageinfo` key, which the loop skips. -/
structure WmPage where
  title : String
  info : Option WmInfo
deriving DecidableEq

/-- Title filter of `download_from_wikimedia`: `File:` prefix and a
lower-cased `.jpg`/`.jpeg`/`.png` suffix. -/
def isWmImageTitle (t : String) : Bool :=
  "File:".isPrefixOf t &&
    (t.toLower.endsWith ".jpg" || t.toLower.endsWith ".jpeg" || t.toLower.endsWith ".png")

/-- First collection loop of `download_from_wikimedia`: keep matching
titles, breaking once `count` are collected. -/
def wmCollectTitles (count : Nat) : List WmSearchItem → List String → List String
  | [], acc => acc
  | i :: rest, acc =>
    if isWmImageTitle i.title then
      if count ≤ acc.length + 1 then acc ++ [i.title]
      else wmCollectTitles count rest (acc ++ [i.title])
    else wmCollectTitles count rest acc

/-- Second collection loop of `download_from_wikimedia`: pages holding an
`imageinfo` whose size lies between 0.1 MB and 10 MB become candidates
(thumburl preferred over url), breaking once `count` are collected. -/
def wmCollectImages (count : Nat) : List WmPage → List Candidate → List Candidate
  | [], acc => acc
  | p :: rest, acc =>
    match p.info with
    | none => wmCollectImages count rest acc
    | some info =>
      if (1 : ℚ)/10 ≤ (info.size : ℚ) / (1024 * 1024) ∧
          (info.size : ℚ) / (1024 * 1024) ≤ 10 then
        let c : Candidate :=
          { url := info.thumburl.orElse (fun _ => info.url), width := info.width,
            height := info.height, source := "wikimedia", description := p.title,
            author := "Wikimedia Commons" }
        if count ≤ acc.length + 1 then acc ++ [c]
        else wmCollectImages count rest (acc ++ [c])
      else wmCollectImages count rest acc

/-- `download_from_wikimedia` (src/telecharger_images_unified.py lines
158-242): two network phases, each under the same `try/except` returning
`[]` on any raised error; an empty title list short-circuits before the
second request. -/
def download_from_wikimedia (count : Nat)
    (resp1 : Except Unit (List WmSearchItem))
    (resp2 : Except Unit (List WmPage)) : List Candidate :=
  match resp1 with
  | .error _ => []
  | .ok results =>
    let image_files := wmCollectTitles count (results.take (count * 2)) []
    if image_files.isEmpty then []
    else
      match resp2 with
      | .error _ => []
      | .ok pages => wmCollectImages count pages []

/-- Candidate merge of `download_10_images_for_word` (lines 348-376): the
per-source lists are concatenated (each gated on availability) with no
deduplication. -/
def collect_candidates (avail : List String)
    (uns pex wiki wkm : List Candidate) : List Candidate :=
  (if "unsplash" ∈ avail then uns else []) ++
  (if "pexels" ∈ avail then pex else []) ++
  (if "wikipedia" ∈ avail then wiki else []) ++
  (if "wikimedia" ∈ avail then wkm else [])

/-- The byte-fetch phase receives `all_images[:10]` (line 388). -/
def fetch_list (all_images : List Candidate) : List Candidate :=
  all_images.take 10

def dupPhoto : UnsplashPhoto := ⟨"https://images.unsplash.test/a", 900, 900, "", "A"⟩

/-- C3 counterexample: a provider response listing the same photo twice
passes through the adapter and the merge unchanged, so the list entering
the byte-fetch phase holds two candidates with the identical
(source, url) pair: no deduplication by (source_id, url) happens. -/
theorem merged_list_keeps_duplicates_C3 :
    ¬ ((fetch_list (collect_candidates ["unsplash"]
          (download_from_unsplash ["unsplash"] "Client-ID k" (.ok [dupPhoto, dupPhoto]))
          [] [] [])).map (fun c => (c.source, c.url))).Nodup := by
  decide

/-- C3 (amended): the merged list entering the byte-fetch phase is the
plain concatenation of the available providers' candidate lists truncated
to the first 10; multiplicities of a candidate are preserved (no
(source_id, url) deduplication), so when the concatenation fits the cap,
every candidate occurs as many times as the providers returned it. -/
theorem merge_is_concat_count_C3 (avail : List String)
    (uns pex wiki wkm : List Candidate) (c : Candidate)
    (hlen : (collect_candidates avail uns pex wiki wkm).length ≤ 10) :
    (fetch_list (collect_candidates avail uns pex wiki wkm)).count c =
      (if "unsplash" ∈ avail then uns.count c else 0) +
      (if "pexels" ∈ avail then pex.count c else 0) +
      (if "wikipedia" ∈ avail then wiki.count c else 0) +
      (if "wikimedia" ∈ avail then wkm.count c else 0) := by
  unfold fetch_list
  rw [List.take_of_length_le hlen]
  unfold collect_candidates
  simp only [List.count_append]
  split_ifs <;> simp

/-- Witness for C3 (amended): one available source returning one candidate
twice; it is counted twice in the fetch list. -/
theorem merge_is_concat_count_C3_witness :
    (fetch_list (collect_candidates ["unsplash"]
        [⟨some "u", some 1, some 1, "unsplash", "", "a"⟩,
         ⟨some "u", some 1, some 1, "unsplash", "", "a"⟩] [] [] [])).count
        ⟨some "u", some 1, some 1, "unsplash", "", "a"⟩ =
      (if "unsplash" ∈ ["unsplash"] then
        ([⟨some "u", some 1, some 1, "unsplash", "", "a"⟩,
          ⟨some "u", some 1, some 1, "unsplash", "", "a"⟩] :
            List Candidate).count ⟨some "u", some 1, some 1, "unsplash", "", "a"⟩ else 0) +
      (if "pexels" ∈ ["unsplash"] then ([] : List Candidate).count
        ⟨some "u", some 1, some 1, "unsplash", "", "a"⟩ else 0) +
      (if "wikipedia" ∈ ["unsplash"] then ([] : List Candidate).count
        ⟨some "u", some 1, some 1, "unsplash", "", "a"⟩ else 0) +
      (if "wikimedia" ∈ ["unsplash"] then ([] : List Candidate).count
        ⟨some "u", some 1, some 1, "unsplash", "", "a"⟩ else 0) :=
  merge_is_concat_count_C3 ["unsplash"]
    [⟨some "u", some 1, some 1, "unsplash", "", "a"⟩,
     ⟨some "u", some 1, some 1, "unsplash", "", "a"⟩] [] [] []
    ⟨some "u", some 1, some 1, "unsplash", "", "a"⟩ (by decide)

/-- C7: each adapter converts every provider-side failure into an empty
candidate list for that provider only.  The conjuncts state: a raised
error anywhere in the Unsplash network/parse phase yields `[]`; missing
(empty) credentials yield `[]`; a raised error in either Wikimedia phase
yields `[]`; and one provider coming back empty leaves the other
providers' contributions to the merged list untouched.  All adapters are
total functions of their (exception-carrying) inputs: nothing propagates
an exception to the caller. -/
theorem adapters_never_raise_C7 :
    (∀ avail auth, download_from_unsplash avail auth (.error ()) = []) ∧
    (∀ avail resp, download_from_unsplash avail "" resp = []) ∧
    (∀ count r2, download_from_wikimedia count (.error ()) r2 = []) ∧
    (∀ count r1, download_from_wikimedia count r1 (.error ()) = []) ∧
    (∀ avail pex wiki wkm, collect_candidates avail [] pex wiki wkm =
      (if "pexels" ∈ avail then pex else []) ++
      (if "wikipedia" ∈ avail then wiki else []) ++
      (if "wikimedia" ∈ avail then wkm else [])) := by
  refine ⟨?_, ?_, ?_, ?_, ?_⟩
  · intro avail auth
    unfold download_from_unsplash
    split_ifs <;> rfl
  · intro avail resp
    unfold download_from_unsplash
    split_ifs with h1 h2 <;> first | rfl | exact absurd rfl h2
  · intro count r2
    rfl
  · intro count r1
    unfold download_from_wikimedia
    cases r1 with
    | error u => rfl
    | ok results => simp only; split_ifs <;> rfl
  · intro avail pex wiki wkm
    unfold collect_candidates
    split_ifs <;> simp

/-! ## Byte fetch and format sniffing: `download_image`
(src/telecharger_images_unified.py lines 244-279). -/

/-- Leading bytes of `<svg`. -/
def svgMagic : List Nat := [60, 115, 118, 103]

/-- Leading bytes of `<?xml`. -/
def xmlMagic : List Nat := [60, 63, 120, 109, 108]

/-- PNG signature prefix tested by the code (`\x89PNG`). -/
def pngMagic : List Nat := [137, 80, 78, 71]

/-- JPEG signature prefix tested by the code (`\xff\xd8\xff`). -/
def jpgMagic : List Nat := [255, 216, 255]

/-- Format detection of `download_image` (lines 253-262): SVG/XML markup is
dropped, PNG magic maps to `.png`, JPEG magic to `.jpg`, anything else is
dropped.  Only the payload bytes are consulted. -/
def sniffExt (content : List Nat) : Option String :=
  if svgMagic.isPrefixOf content || xmlMagic.isPrefixOf content then none
  else if pngMagic.isPrefixOf content then some ".png"
  else if jpgMagic.isPrefixOf content then some ".jpg"
  else none

/-- Index of the last occurrence of a character. -/
def lastIdxOf (c : Char) : List Char → Option Nat
  | [] => none
  | a :: rest =>
    match lastIdxOf c rest with
    | some i => some (i + 1)
    | none => if a = c then some 0 else none

/-- Model of `os.path.splitext(p)[0]` (CPython genericpath._splitext): cut
at the last dot when it lies after the last slash and the basename is not
all leading dots up to it. -/
def splitextBase (p : String) : String :=
  let l := p.toList
  match lastIdxOf '.' l with
  | none => p
  | some d =>
    let s : Int := match lastIdxOf '/' l with | some i => (i : Int) | none => -1
    if decide (s < (d : Int)) && (List.range l.length).any (fun k =>
        decide (s < (k : Int)) && decide ((k : Int) < (d : Int)) && (l.getD k '.' != '.')) then
      String.mk (l.take d)
    else p

/-- `download_image` of the unified downloader: returns the Python pair
`(success, final_path)`; the byte fetch may raise (modelled by the `Except`
input, caught by the `try/except` as `(False, None)`), and the candidate
metadata `info` is never consulted for the accept/reject decision. -/
def download_image (info : Candidate) (save_path : String)
    (fetched : Except Unit (List Nat)) : Bool × Option String :=
  match fetched with
  | .error _ => (false, none)
  | .ok content =>
    match sniffExt content with
    | none => (false, none)
    | some ext => (true, some (splitextBase save_path ++ ext))

theorem download_image_ok (i : Candidate) (p : String) (content : List Nat) :
    download_image i p (.ok content) =
      match sniffExt content with
      | none => (false, none)
      | some ext => (true, some (splitextBase p ++ ext)) := rfl

theorem sniffExt_png (content : List Nat) (h : pngMagic.isPrefixOf content) :
    sniffExt content = some ".png" := by
  obtain ⟨t, ht⟩ := List.isPrefixOf_iff_prefix.mp h
  subst ht
  simp [sniffExt, svgMagic, xmlMagic, pngMagic, jpgMagic, List.isPrefixOf]

theorem sniffExt_jpg (content : List Nat) (h : jpgMagic.isPrefixOf content) :
    sniffExt content = some ".jpg" := by
  obtain ⟨t, ht⟩ := List.isPrefixOf_iff_prefix.mp h
  subst ht
  simp [sniffExt, svgMagic, xmlMagic, pngMagic, jpgMagic, List.isPrefixOf]

theorem sniffExt_markup (content : List Nat)
    (h : svgMagic.isPrefixOf content ∨ xmlMagic.isPrefixOf content) :
    sniffExt content = none := by
  unfold sniffExt
  rcases h with h | h <;> simp [h]

/-- C6: the accept/reject decision and the produced extension of
`download_image` depend only on the leading payload bytes, never on the
candidate metadata or the save path: (1) any two calls on the same bytes
decide identically regardless of metadata and path; (2) a PNG-magic payload
is accepted and saved under `.png`; (3) a JPEG-magic payload is accepted and
saved under `.jpg` — in particular a raster payload is never rejected for
the filename lacking the matching extension, and the saved name carries the
canonical extension of the sniffed format; (4) SVG/XML markup is rejected;
(5) any payload whose sniff fails is rejected. -/
theorem sniff_decides_format_C6 :
    (∀ i1 i2 p1 p2 content,
      (download_image i1 p1 (.ok content)).fst = (download_image i2 p2 (.ok content)).fst) ∧
    (∀ i p content, pngMagic.isPrefixOf content →
      download_image i p (.ok content) = (true, some (splitextBase p ++ ".png"))) ∧
    (∀ i p content, jpgMagic.isPrefixOf content →
      download_image i p (.ok content) = (true, some (splitextBase p ++ ".jpg"))) ∧
    (∀ i p content, svgMagic.isPrefixOf content ∨ xmlMagic.isPrefixOf content →
      download_image i p (.ok content) = (false, none)) ∧
    (∀ i p content, sniffExt content = none →
      (download_image i p (.ok content)).fst = false) := by
  refine ⟨?_, ?_, ?_, ?_, ?_⟩
  · intro i1 i2 p1 p2 content
    rw [download_image_ok, download_image_ok]
    cases sniffExt content <;> rfl
  · intro i p content h
    rw [download_image_ok, sniffExt_png content h]
  · intro i p content h
    rw [download_image_ok, sniffExt_jpg content h]
  · intro i p content h
    rw [download_image_ok, sniffExt_markup content h]
  · intro i p content h
    rw [download_image_ok, h]

def cInfoC6 : Candidate :=
  ⟨some "https://images.unsplash.test/a", some 900, some 900, "unsplash", "", "A"⟩

/-- Witness for C6: a PNG payload handed in under a `.jpg` save path is
accepted and saved as `.png`. -/
theorem sniff_decides_format_C6_witness :
    download_image cInfoC6 "photos/eye_unsplash_1.jpg" (.ok [137, 80, 78, 71, 13, 10]) =
      (true, some "photos/eye_unsplash_1.png") := by
  have h := sniff_decides_format_C6.2.1 cInfoC6 "photos/eye_unsplash_1.jpg"
    [137, 80, 78, 71, 13, 10] (by decide)
  rw [h]
  decide

/-! ## Validation chain of src/telecharger_images.py
(`download_image` lines 414-450 and `_is_child_friendly_image` lines
452-485). -/

/-- The blocklist of `_is_child_friendly_image`. -/
def inappropriate_keywords : List String :=
  ["adult", "mature", "sexy", "nude", "naked", "violence", "blood", "gore",
   "scary", "horror", "frightening", "terrifying", "dark", "evil",
   "weapon", "gun", "knife", "dangerous", "aggressive", "angry"]

/-- The metadata fields `_is_child_friendly_image` reads from `image_info`. -/
structure TiCandidate where
  description : String
  author : String
deriving DecidableEq

/-- The environment of one `download_image` call in
src/telecharger_images.py: the byte fetch (raising modelled as `error`),
the response content type, the `Image.open` + `img.verify()` step on the
saved file, and the second `Image.open` inside the child-friendliness check
(its `error` is the internal decode failure of claim C4). -/
structure TiEnv where
  content : Except Unit (List Nat)
  contentType : String
  verify : Except Unit Unit
  childDims : Except Unit (Nat × Nat)

/-- Model of Python `str.lower()` as the ASCII case map over the character
list. -/
def strLower (s : String) : String := String.mk (s.toList.map Char.toLower)

/-- The lower-cased `f"{description} {author}"` scanned by the blocklist. -/
def text_to_check (info : TiCandidate) : String :=
  strLower info.description ++ " " ++ strLower info.author

def has_blocked_keyword (info : TiCandidate) : Bool :=
  inappropriate_keywords.any (fun k => strContains (text_to_check info) k)

/-- `_is_child_friendly_image`: the keyword scan cannot raise; the only
raising step is the dimension read, and the enclosing
`except Exception: return True` turns ITS failure into an accept. -/
def is_child_friendly_image (info : TiCandidate)
    (childDims : Except Unit (Nat × Nat)) : Bool :=
  if has_blocked_keyword info then false
  else
    match childDims with
    | .error _ => true
    | .ok (w, h) => if w < 200 || h < 200 then false else true

/-- The content-type gate of `download_image` (lines 425-427). -/
def content_type_ok (ct : String) : Bool :=
  ["image/jpeg", "image/png", "image/jpg"].any (fun t => strContains ct t)

/-- `download_image` of src/telecharger_images.py: size gate, content-type
gate, verify step (whose decode error is a reject), then the
child-friendliness check. -/
def download_image_ti (info : TiCandidate) (env : TiEnv) : Bool :=
  match env.content with
  | .error _ => false
  | .ok content =>
    if 10 * 1024 * 1024 < content.length then false
    else if !(content_type_ok env.contentType) then false
    else
      match env.verify with
      | .error _ => false
      | .ok _ => is_child_friendly_image info env.childDims

/-- C4 (amended): validation never raises (every `download_image` call is a
total Boolean function of its exception-carrying environment); a decode
error in the initial `Image.open`/`verify()` step rejects the candidate,
BUT an internal error inside the child-friendliness check — including its
image decode — results in an Accept, not a Reject (the code comments this
deliberately: `En cas d'erreur, considérer l'image comme valide`). -/
theorem validation_decode_paths_C4 :
    (∀ info env, env.verify = Except.error () → download_image_ti info env = false) ∧
    (∀ info env content, env.content = Except.ok content →
      content.length ≤ 10 * 1024 * 1024 →
      content_type_ok env.contentType = true →
      env.verify = Except.ok () →
      has_blocked_keyword info = false →
      env.childDims = Except.error () →
      download_image_ti info env = true) := by
  constructor
  · intro info env hv
    unfold download_image_ti
    cases hc : env.content with
    | error u => rfl
    | ok content =>
      simp only
      rw [hv]
      split_ifs <;> rfl
  · intro info env content hc hlen hct hv hkw hcd
    unfold download_image_ti
    rw [hc]
    simp only
    rw [if_neg (by omega), hct]
    simp only [Bool.not_true, Bool.false_eq_true, if_false, hv]
    unfold is_child_friendly_image
    rw [hkw, hcd]
    simp

def tiInfoClean : TiCandidate := ⟨"a closeup photograph of a human eye", "Jane Doe"⟩

def tiEnvDecodeErr : TiEnv :=
  ⟨.ok [255, 216, 255, 224], "image/jpeg", .ok (), .error ()⟩

/-- C4 counterexample: a candidate whose metadata passes the blocklist and
whose saved file verifies, but whose decode inside
`_is_child_friendly_image` raises, is ACCEPTED (returns True): an internal
decode error during validation does not produce a Reject, contradicting the
claim. -/
theorem child_check_decode_error_accepts_C4 :
    download_image_ti tiInfoClean tiEnvDecodeErr = true := by
  decide

/-- Witness for C4 (amended), exercising both conjuncts at concrete
environments: a verify-step decode error rejects, and the child-check
decode error accepts. -/
theorem validation_decode_paths_C4_witness :
    download_image_ti tiInfoClean ⟨.ok [255, 216, 255, 224], "image/jpeg", .error (), .ok (300, 300)⟩ = false ∧
    download_image_ti tiInfoClean tiEnvDecodeErr = true :=
  ⟨validation_decode_paths_C4.1 tiInfoClean
      ⟨.ok [255, 216, 255, 224], "image/jpeg", .error (), .ok (300, 300)⟩ rfl,
    validation_decode_paths_C4.2 tiInfoClean tiEnvDecodeErr [255, 216, 255, 224] rfl
      (by decide) (by decide) rfl (by decide) rfl⟩

/-! ## CLIP scorer: `CLIPImageScorer.score_image`
(src/scorer_images_clip.py lines 43-108). -/

/-- The fixed per-variant weights of the six prompt variants, in prompt
order: professional 1.3, high quality 1.2, clean 1.1, clear 1.0, good 1.0,
bare query 0.9. -/
def clip_weights : Fin 6 → ℝ := ![1.3, 1.2, 1.1, 1, 1, 0.9]

/-- The sigmoid normalization `1 / (1 + exp(-max_score / 10))`. -/
noncomputable def logistic_norm (x : ℝ) : ℝ := 1 / (1 + Real.exp (-(x / 10)))

/-- The maximum of the weighted per-prompt similarity logits. -/
noncomputable def max_weighted_score (logits : Fin 6 → ℝ) : ℝ :=
  Finset.univ.sup' ⟨0, Finset.mem_univ 0⟩ (fun i => logits i * clip_weights i)

/-- `score_image`: `logits` is `logits_per_image` for the six prompt
variants when the whole `try` body succeeds, `none` when any step of it
raises (the `except` returns 0.0). -/
noncomputable def score_image_clip (logits : Option (Fin 6 → ℝ)) : ℝ :=
  match logits with
  | none => 0
  | some l => logistic_norm (max_weighted_score l)

theorem logistic_norm_mem (x : ℝ) : 0 ≤ logistic_norm x ∧ logistic_norm x ≤ 1 := by
  unfold logistic_norm
  have hexp : 0 < Real.exp (-(x / 10)) := Real.exp_pos _
  constructor
  · positivity
  · rw [div_le_one (by linarith)]
    linarith

/-- C8: the CLIP scorer always returns a real number in [0, 1]; on an
internal error it returns the minimum score 0, and on success it returns
the logistic normalization of the maximum of the per-prompt weighted
similarity scores. -/
theorem clip_score_range_C8 :
    (∀ logits, 0 ≤ score_image_clip logits ∧ score_image_clip logits ≤ 1) ∧
    score_image_clip none = 0 ∧
    (∀ l : Fin 6 → ℝ, score_image_clip (some l) =
      1 / (1 + Real.exp (-(max_weighted_score l / 10)))) := by
  refine ⟨?_, rfl, fun l => rfl⟩
  intro logits
  cases logits with
  | none => norm_num [score_image_clip]
  | some l => exact logistic_norm_mem (max_weighted_score l)

end Vilma
